import Mathlib

/-!
Verification of the RepoNexus core (a TypeScript single-page app) against its
natural-language specification.  The definitions below are a shallow embedding
of the relevant source fragments:

* `src/lib/cache.ts` — the versioned analysis cache (`getCachedAnalysis`,
  `setCachedAnalysis`, `clearCache`, `migrateCacheIfNeeded`);
* `src/App.tsx` / `src/unnamed/part_004` — the orchestrator (`handleAnalyze`),
  the batch coordinator (`syncRepositories`) and the local-scan merge
  (`handleScanLocal`);
* `src/services/geminiService.ts` — the provider wrapper (`analyzeRepository`)
  with its rate-limit message classification;
* `src/services/localFileSystemService.ts` — the recursive scanner
  (`scanForRepos`, `extractRepoMetadata`).

`localStorage` is modelled as a partial map from string keys to already-parsed
values (`Store`); network and filesystem collaborators are modelled as oracle
parameters; `Math.random()` draws are modelled as an explicit stream of
natural numbers consumed by the scan.
-/

namespace RepoNexus

/-- Analysis depth as stored on an `AnalysisResult` (types.ts: `level`). -/
inductive Level where
  | superficial
  | detailed
  | inventory
  deriving DecidableEq, Repr

/-- The `level` parameter type of `handleAnalyze` / `analyzeRepository`
(TS union `'superficial' | 'detailed'`). -/
inductive ReqLevel where
  | superficial
  | detailed
  deriving DecidableEq, Repr

/-- Injection of the request-level union into the stored level union. -/
def ReqLevel.toLevel : ReqLevel → Level
  | ReqLevel.superficial => Level.superficial
  | ReqLevel.detailed => Level.detailed

/-- The `status` field of `AnalysisResult` (types.ts). -/
inductive Status where
  | idle
  | fetching_readme
  | analyzing
  | success
  | error
  deriving DecidableEq, Repr

/-- `AnalysisResult` from types.ts (src/unnamed/part_005).  Optional TS fields
become `Option`. -/
structure AnalysisResult where
  projectPulse : String
  resumePoints : List String
  forgottenIdeas : List String
  reorgAdvice : String
  status : Status
  level : Level
  errorDetails : Option String
  fullReadme : Option String
  detailedDescription : Option String
  inventorySummary : Option String
  deriving DecidableEq, Repr

/-- `GithubRepo` from types.ts.  The TS field `private` is a Lean keyword and
is rendered `isPrivate`. -/
structure GithubRepo where
  id : Nat
  name : String
  full_name : String
  description : Option String
  isPrivate : Bool
  html_url : String
  language : Option String
  updated_at : String
  readme_content : Option String
  default_branch : String
  isLocal : Bool
  localPath : Option String
  deriving DecidableEq, Repr

/-- The `repo` snapshot stored inside a `CachedAnalysis` (cache.ts). -/
structure RepoSnapshot where
  id : Nat
  name : String
  language : Option String
  description : Option String
  deriving DecidableEq, Repr

/-- `CachedAnalysis` from cache.ts: the JSON shape written under the
versioned-cache key namespace. -/
structure CachedAnalysis where
  schemaVersion : Nat
  cachedAt : Nat
  repo : RepoSnapshot
  analysis : AnalysisResult
  deriving DecidableEq, Repr

/-- The JSON payload returned by the provider call in
`geminiService.analyzeRepository` (superficial/detailed prompt shape). -/
structure ProviderPayload where
  projectPulse : String
  resumePoints : List String
  forgottenIdeas : List String
  reorgAdvice : String
  detailedDescription : Option String
  deriving DecidableEq, Repr

/-- A value held in `localStorage`, modelled after what `JSON.parse` yields on
the stored text.  `analysisJson` is the shape written by `handleAnalyze` and
`syncRepositories` (a bare `AnalysisResult`); `cachedJson` is the shape written
by `setCachedAnalysis` (a `CachedAnalysis`); `settingsStr` is raw non-JSON text
such as a token or a numeric setting; `malformed` is stored text on which
`JSON.parse` throws. -/
inductive StoredVal where
  | analysisJson (a : AnalysisResult)
  | cachedJson (c : CachedAnalysis)
  | settingsStr (s : String)
  | malformed
  deriving DecidableEq, Repr

/-- The persistent store (`localStorage`): a partial map from keys to values. -/
def Store : Type := String → Option StoredVal

/-- localStorage.setItem. -/
def setItem (k : String) (v : StoredVal) (s : Store) : Store :=
  fun q => if q = k then some v else s q

/-- localStorage.removeItem. -/
def removeItem (k : String) (s : Store) : Store :=
  fun q => if q = k then none else s q

/-- cache.ts `CACHE_SCHEMA_VERSION` (currently 1). -/
def CACHE_SCHEMA_VERSION : Nat := 1

/-- cache.ts `CACHE_KEY_PREFIX`, the key namespace of the versioned cache. -/
def cacheKeyHead : String := "repoAnalysis_"

/-- cache.ts `CACHE_VERSION_KEY`, the global schema-version marker key. -/
def versionKey : String := "cacheSchemaVersion"

/-- The versioned-cache key for a repository id (cache.ts template literal). -/
def cacheKeyOf (repoId : Nat) : String := cacheKeyHead ++ toString repoId

/-- The orchestrator cache key for a repository id (App.tsx template literal
`analysis_` followed by the id — note: a different namespace from
`cacheKeyHead`). -/
def analysisKeyOf (repoId : Nat) : String := "analysis_" ++ toString repoId

/-- Embedding of `key.startsWith(prefixString)`: UTF-8 prefix test, rendered as
a character-list prefix test. -/
def stringHasPre (p k : String) : Bool := List.isPrefixOf p.data k.data

/-- cache.ts `getCachedAnalysis(repoId)`.  Returns the read result together
with the possibly-updated store.  Case analysis mirrors the source: a missing
key returns null; a parsed record with mismatched `schemaVersion` is removed
and null returned; stored text on which `JSON.parse` throws (`malformed`, and
likewise raw non-JSON `settingsStr` text) lands in the catch block, which only
logs and returns null — the entry is NOT removed.  An `analysisJson` value
under a cache key parses but carries no `schemaVersion` field, so the strict
comparison `parsed.schemaVersion !== CACHE_SCHEMA_VERSION` is true (undefined)
and the entry is removed; such a value never occurs under this namespace in
any app flow. -/
def getCachedAnalysis (repoId : Nat) (s : Store) : Option CachedAnalysis × Store :=
  let key := cacheKeyOf repoId
  match s key with
  | none => (none, s)
  | some (StoredVal.cachedJson c) =>
      if c.schemaVersion = CACHE_SCHEMA_VERSION then (some c, s)
      else (none, removeItem key s)
  | some (StoredVal.analysisJson _) => (none, removeItem key s)
  | some (StoredVal.settingsStr _) => (none, s)
  | some StoredVal.malformed => (none, s)

/-- cache.ts `setCachedAnalysis(repoId, repo, analysis)`; `now` stands for
`Date.now()`. -/
def setCachedAnalysis (repoId : Nat) (repo : RepoSnapshot) (analysis : AnalysisResult)
    (now : Nat) (s : Store) : Store :=
  setItem (cacheKeyOf repoId)
    (StoredVal.cachedJson
      { schemaVersion := CACHE_SCHEMA_VERSION, cachedAt := now, repo := repo,
        analysis := analysis }) s

/-- cache.ts `clearCache(repoId?)`: with an id, remove that one key; without,
remove every key carrying the versioned-cache prefix (the source loops over
all keys collecting those that start with `CACHE_KEY_PREFIX`, then removes
them). -/
def clearCache (repoId : Option Nat) (s : Store) : Store :=
  match repoId with
  | some i => removeItem (cacheKeyOf i) s
  | none => fun q => if stringHasPre cacheKeyHead q then none else s q

/-- Value of a run of decimal digits. -/
def digitsVal (l : List Char) : Nat :=
  l.foldl (fun a c => a * 10 + (c.toNat - 48)) 0

/-- Embedding of `parseInt(str, 10)` for the nonnegative text this app ever
stores under the marker key: the value of the leading digit run, or `none`
(NaN) when the text does not begin with a digit. -/
def parseIntStr (s : String) : Option Nat :=
  match s.data.takeWhile Char.isDigit with
  | [] => none
  | ds => some (digitsVal ds)

/-- The `storedVersionNumber` computation at the top of cache.ts
`migrateCacheIfNeeded`: `parseInt` of the marker if present (`none` models
NaN on non-numeric text; a non-string stored value is serialized JSON text,
on which `parseInt` also yields NaN), else 0. -/
def storedVersionNumber (s : Store) : Option Nat :=
  match s versionKey with
  | some (StoredVal.settingsStr str) => parseIntStr str
  | some _ => none
  | none => some 0

/-- cache.ts `migrateCacheIfNeeded()`: if the persisted marker equals the
current constant, do nothing; if it parses smaller, clear all versioned-cache
records; in every non-equal case rewrite the marker to the current constant
(a NaN marker is neither equal nor smaller, so nothing is cleared). -/
def migrateCacheIfNeeded (s : Store) : Store :=
  match storedVersionNumber s with
  | some n =>
      if n = CACHE_SCHEMA_VERSION then s
      else
        let s1 := if n < CACHE_SCHEMA_VERSION then clearCache none s else s
        setItem versionKey (StoredVal.settingsStr (toString CACHE_SCHEMA_VERSION)) s1
  | none => setItem versionKey (StoredVal.settingsStr (toString CACHE_SCHEMA_VERSION)) s

/-- The rate-limit message produced by geminiService when the underlying error
message mentions HTTP 429. -/
def rateLimitMsg : String := "Rate limit exceeded on OpenRouter. Please wait a moment."

/-- Whether `n` occurs as a contiguous run inside `h`. -/
def listHasInfix (n : List Char) : List Char → Bool
  | [] => List.isPrefixOf n []
  | c :: rest => List.isPrefixOf n (c :: rest) || listHasInfix n rest

/-- Containment test `error.message?.includes('429')`. -/
def contains429 (m : String) : Bool := listHasInfix ("429").data m.data

/-- The outer catch of geminiService `analyzeRepository`: a failure whose
message mentions 429 is rewritten to the fixed rate-limit message; any other
failure message is rethrown unchanged. -/
def classifyError (m : String) : String := if contains429 m then rateLimitMsg else m

/-- geminiService `analyzeRepository`, with the transport/parse outcome of the
OpenRouter call supplied as `raw` (missing API key, non-ok response, empty or
unparseable completion are all failures of `raw`). -/
def analyzeRepository (raw : Except String ProviderPayload) : Except String ProviderPayload :=
  match raw with
  | Except.ok p => Except.ok p
  | Except.error m => Except.error (classifyError m)

/-- One observable network call of the orchestrator / batch coordinator. -/
inductive NetCall where
  | fetchReadme (fullName : String)
  | fetchContents (fullName : String)
  | provider (repoName : String) (level : ReqLevel)
  deriving DecidableEq, Repr

/-- Outcomes of the GitHub/provider collaborators for one `handleAnalyze`
invocation.  `readmeResult` is `fetchRepoReadme` (its 404 branch returns the
text "No README found.", so only transport failures are `error`);
`contentsResult` is `fetchRepoContents`; `providerRaw` is the raw outcome of
the OpenRouter call before classification. -/
structure GithubEnv where
  readmeResult : Except String String
  contentsResult : Except String (List (Bool × String))
  providerRaw : Except String ProviderPayload

/-- The blank analysis state `handleAnalyze` installs before fetching
(App.tsx: status `fetching_readme`, `fullReadme: ''`). -/
def resetAnalysis (level : ReqLevel) : AnalysisResult :=
  { projectPulse := "", resumePoints := [], forgottenIdeas := [], reorgAdvice := "",
    status := Status.fetching_readme, level := level.toLevel, errorDetails := none,
    fullReadme := some "", detailedDescription := none, inventorySummary := none }

/-- Rendering of the file listing as tree text (App.tsx: `[DIR]`/`[FILE]`
tag, space, path, newline-joined). -/
def renderTree (contents : List (Bool × String)) : String :=
  String.intercalate "\n"
    (contents.map (fun f => (if f.1 then "[DIR] " else "[FILE] ") ++ f.2))

/-- The placeholder installed when the README fetch throws (App.tsx inner
catch). -/
def noReadmePlaceholder : String := "No README content found for this repository."

/-- Result of one `handleAnalyze` invocation: the final analysis state, the
updated store, and the list of network calls issued, in order. -/
structure HAOut where
  analysis : AnalysisResult
  store : Store
  calls : List NetCall

/-- The tail of `handleAnalyze` from the provider call on: invoke
`analyzeRepository`; on failure set the error state (spreading the
`analyzing` state, which carries the readme); on success build the final
record (`{...result, status, level, fullReadme}`) and write it under the
orchestrator cache key. -/
def afterContext (env : GithubEnv) (repo : GithubRepo) (level : ReqLevel) (s : Store)
    (readme : String) (_tree : String) (calls : List NetCall) : HAOut :=
  let analyzing :=
    { resetAnalysis level with
        status := Status.analyzing
        fullReadme := some readme }
  match analyzeRepository env.providerRaw with
  | Except.error m =>
      { analysis :=
          { analyzing with
              status := Status.error
              level := level.toLevel
              errorDetails := some m },
        store := s,
        calls := calls ++ [NetCall.provider repo.name level] }
  | Except.ok p =>
      let finalAnalysis : AnalysisResult :=
        { projectPulse := p.projectPulse, resumePoints := p.resumePoints,
          forgottenIdeas := p.forgottenIdeas, reorgAdvice := p.reorgAdvice,
          status := Status.success, level := level.toLevel, errorDetails := none,
          fullReadme := some readme, detailedDescription := p.detailedDescription,
          inventorySummary := none }
      { analysis := finalAnalysis,
        store := setItem (analysisKeyOf repo.id) (StoredVal.analysisJson finalAnalysis) s,
        calls := calls ++ [NetCall.provider repo.name level] }

/-- The cache-miss path of `handleAnalyze`: reuse `cachedAnalysis?.fullReadme`
when non-empty, otherwise fetch the README (substituting the fixed placeholder
on failure); for a detailed request additionally fetch the repository contents
(a throw there reaches the outer catch as an error state); then run the
provider step. -/
def handleAnalyzeFetch (env : GithubEnv) (repo : GithubRepo) (level : ReqLevel)
    (s : Store) (cached : Option AnalysisResult) : HAOut :=
  let readme0 : String := (cached.bind AnalysisResult.fullReadme).getD ""
  let readme : String :=
    if readme0 = "" then
      match env.readmeResult with
      | Except.ok r => r
      | Except.error _ => noReadmePlaceholder
    else readme0
  let calls0 : List NetCall :=
    if readme0 = "" then [NetCall.fetchReadme repo.full_name] else []
  match level with
  | ReqLevel.superficial => afterContext env repo level s readme "" calls0
  | ReqLevel.detailed =>
      match env.contentsResult with
      | Except.error m =>
          { analysis :=
              { resetAnalysis level with
                  status := Status.error
                  level := Level.detailed
                  errorDetails := some m },
            store := s,
            calls := calls0 ++ [NetCall.fetchContents repo.full_name] }
      | Except.ok cs =>
          afterContext env repo level s readme (renderTree cs)
            (calls0 ++ [NetCall.fetchContents repo.full_name])

/-- App.tsx `handleAnalyze(repo, level)`: read the orchestrator cache key; on
a record satisfying `level === 'superficial' || cached.level === 'detailed'`
return it with no network activity; otherwise run the fetch-and-analyze
path.  No schema-version check of any kind is performed on this namespace. -/
def handleAnalyze (env : GithubEnv) (repo : GithubRepo) (level : ReqLevel)
    (s : Store) : HAOut :=
  let cached : Option AnalysisResult :=
    match s (analysisKeyOf repo.id) with
    | some (StoredVal.analysisJson a) => some a
    | _ => none
  match cached with
  | some c =>
      if level = ReqLevel.superficial ∨ c.level = Level.detailed then
        { analysis := c, store := s, calls := [] }
      else handleAnalyzeFetch env repo level s (some c)
  | none => handleAnalyzeFetch env repo level s none

/-- The ephemeral progress report `setSyncProgress` publishes before each
repository in `syncRepositories`. -/
structure SyncProgress where
  current : Nat
  total : Nat
  currentName : String
  deriving DecidableEq, Repr

/-- Collaborator outcomes for one repository inside the batch loop. -/
structure SyncOracle where
  readmeResult : Except String String
  providerRaw : Except String ProviderPayload

/-- Collaborator outcomes for the whole batch, per repository. -/
def SyncEnv : Type := GithubRepo → SyncOracle

/-- Trace record for one iteration of the batch loop: which repository was
visited, whether its cache entry already existed (skip), and the network
calls issued for it. -/
structure SyncStep where
  repoId : Nat
  repoName : String
  fullName : String
  skipped : Bool
  calls : List NetCall
  deriving DecidableEq, Repr

/-- The body of one iteration of the `syncRepositories` loop: if the
orchestrator cache key exists, do nothing; otherwise fetch the README, run
the provider at level superficial, and on success write the result
(`{...result, status: 'success', level: 'superficial', fullReadme}`); any
throw is caught and logged, leaving the store unchanged. -/
def syncStepRun (env : SyncEnv) (s : Store) (repo : GithubRepo) : Store × List NetCall :=
  match s (analysisKeyOf repo.id) with
  | some _ => (s, [])
  | none =>
      match (env repo).readmeResult with
      | Except.error _ => (s, [NetCall.fetchReadme repo.full_name])
      | Except.ok readme =>
          match analyzeRepository (env repo).providerRaw with
          | Except.error _ =>
              (s, [NetCall.fetchReadme repo.full_name,
                   NetCall.provider repo.name ReqLevel.superficial])
          | Except.ok p =>
              let finalAnalysis : AnalysisResult :=
                { projectPulse := p.projectPulse, resumePoints := p.resumePoints,
                  forgottenIdeas := p.forgottenIdeas, reorgAdvice := p.reorgAdvice,
                  status := Status.success, level := Level.superficial,
                  errorDetails := none, fullReadme := some readme,
                  detailedDescription := p.detailedDescription, inventorySummary := none }
              (setItem (analysisKeyOf repo.id) (StoredVal.analysisJson finalAnalysis) s,
               [NetCall.fetchReadme repo.full_name,
                NetCall.provider repo.name ReqLevel.superficial])

/-- The sequential loop of `syncRepositories`: report progress
(`{current: completed, total, currentName}`) before each repository, run the
iteration body, advance `completed`. -/
def syncGo (env : SyncEnv) (total : Nat) :
    Nat → List GithubRepo → Store → Store × List SyncProgress × List SyncStep
  | _, [], s => (s, [], [])
  | completed, r :: rs, s =>
      let prog : SyncProgress := { current := completed, total := total, currentName := r.name }
      let res := syncStepRun env s r
      let step : SyncStep :=
        { repoId := r.id, repoName := r.name, fullName := r.full_name,
          skipped := (s (analysisKeyOf r.id)).isSome, calls := res.2 }
      let rest := syncGo env total (completed + 1) rs res.1
      (rest.1, prog :: rest.2.1, step :: rest.2.2)

/-- App.tsx `syncRepositories(token, repoList)`: truncate the list to the sync
limit (`repoList.slice(0, syncLimit)`), then run the sequential loop with
`total` fixed to the truncated length. -/
def syncRepositories (env : SyncEnv) (limit : Nat) (repos : List GithubRepo)
    (s : Store) : Store × List SyncProgress × List SyncStep :=
  syncGo env (repos.take limit).length 0 (repos.take limit) s

/-- The progress reports a run of the loop emits: one per repository, indices
counting up from the given start. -/
def progressSchedule (total : Nat) : Nat → List GithubRepo → List SyncProgress
  | _, [] => []
  | c, r :: rs =>
      { current := c, total := total, currentName := r.name } :: progressSchedule total (c + 1) rs

/-- One insertion into a JavaScript `Map` keyed by `full_name`: if the key is
already present, its value is replaced in place (the key keeps its original
position); otherwise the entry is appended. -/
def recInsert (acc : List GithubRepo) (r : GithubRepo) : List GithubRepo :=
  if acc.any (fun x => x.full_name == r.full_name) then
    acc.map (fun x => if x.full_name == r.full_name then r else x)
  else acc ++ [r]

/-- src/unnamed/part_004 `handleScanLocal` dedup step:
`Array.from(new Map(list.map(r => [r.full_name, r])).values())`.  Building the
`Map` from the entry list inserts left to right, so later entries with an
already-seen `full_name` overwrite the stored value while keeping the key at
its first-seen position. -/
def dedupByFullName (l : List GithubRepo) : List GithubRepo :=
  l.foldl recInsert []

/-- src/unnamed/part_004 `handleScanLocal` merge: append the new scan results
to the previously held list, then deduplicate by `full_name` (the result is
also persisted under the `local_repos` key, not modelled here). -/
def mergeLocalRepos (prev newRepos : List GithubRepo) : List GithubRepo :=
  dedupByFullName (prev ++ newRepos)

/-- A directory in the local filesystem model: a name, the names of its plain
files, and its subdirectories. -/
inductive FsDir where
  | mk (name : String) (files : List String) (subdirs : List FsDir)

/-- Name of a directory node. -/
def FsDir.name : FsDir → String
  | FsDir.mk n _ _ => n

/-- File names of a directory node. -/
def FsDir.files : FsDir → List String
  | FsDir.mk _ fs _ => fs

/-- Subdirectories of a directory node. -/
def FsDir.subdirs : FsDir → List FsDir
  | FsDir.mk _ _ ds => ds

/-- The version-control marker directory name probed by
`getDirectoryHandle('.git')`. -/
def gitMarkerName : String := ".git"

/-- The skip test in the scanner loop: `node_modules`, `dist`, `build`, and
any name beginning with a dot (`entry.name.startsWith('.')`). -/
def isSkippedDirName (n : String) : Bool :=
  n == "node_modules" || n == "dist" || n == "build" || stringHasPre "." n

/-- Path concatenation used on recursion
(`path ? path + '/' + entry.name : entry.name`). -/
def childPath (path n : String) : String :=
  if path = "" then n else path ++ "/" ++ n

/-- Whether a directory holds the version-control marker as a direct
subdirectory. -/
def hasGitMarker (d : FsDir) : Bool :=
  d.subdirs.any (fun c => c.name == gitMarkerName)

/-- The record produced for one discovered repository root
(`extractRepoMetadata`).  Fields derived from file contents (description,
dependency list, the README text) are not referenced by any claim and are
omitted; the fields below are computed exactly as in the source from the file
names present, the `Math.random()` draw (`id`) and the
`new Date().toISOString()` clock reading (`updated_at`). -/
structure LocalRepo where
  id : Nat
  name : String
  full_name : String
  localPath : String
  updated_at : String
  detectedFiles : List String
  language : String
  hasDocker : Bool
  deriving DecidableEq, Repr

/-- The secondary manifest probe list (`commonConfigs`). -/
def commonConfigs : List String :=
  ["requirements.txt", "pyproject.toml", "Cargo.toml", "go.mod", "Dockerfile",
   "docker-compose.yml", "tsconfig.json", "vite.config.ts", "next.config.js"]

/-- The language override applied for one present secondary manifest, in
probe order (the `.go` test never fires on the probe list, exactly as in
the source, where no probed name ends in `.go`). -/
def configLanguage (configName lang : String) : String :=
  let l1 := if configName.endsWith (".toml") then "Rust/Python" else lang
  let l2 := if configName.endsWith (".go") then "Go" else l1
  if configName == "requirements.txt" then "Python" else l2

/-- `extractRepoMetadata(handle, path)`.  `rnd` is the `Math.random()` draw
for this call, so `id = Math.floor(rnd * 1000000)` is modelled as `rnd`
reduced modulo 1000000; `nowIso` is the `new Date().toISOString()` clock
reading for this call, stored as `updated_at`; `full_name` is `local/` +
path. -/
def extractRepoMetadata (rnd : Nat) (nowIso : String) (dirName : String)
    (files : List String) (path : String) : LocalRepo :=
  let hasPkg := files.contains "package.json"
  let lang0 := if hasPkg then "TypeScript/JavaScript" else "Unknown"
  let present := commonConfigs.filter (fun c => files.contains c)
  { id := rnd % 1000000,
    name := dirName,
    full_name := "local/" ++ path,
    localPath := path,
    updated_at := nowIso,
    detectedFiles := (if hasPkg then ["package.json"] else []) ++ present,
    language := present.foldl (fun l c => configLanguage c l) lang0,
    hasDocker := present.contains "Dockerfile" }

mutual

/-- `scanForRepos(directoryHandle, path)`.  A directory holding the marker is
one repository: extract its metadata — consuming one element of the ambient
stream `gen`, whose pair carries the `Math.random()` draw and the
`new Date().toISOString()` reading for that extraction — and return without
recursing.  Otherwise iterate the subdirectories, skipping noise and hidden
names, concatenating the records of recursive scans.  The ambient stream is
threaded through and returned. -/
def scanForRepos (gen : List (Nat × String)) (d : FsDir) (path : String) :
    List LocalRepo × List (Nat × String) :=
  match d with
  | FsDir.mk dirName files subdirs =>
      if (subdirs.any (fun c => c.name == gitMarkerName)) then
        ([extractRepoMetadata (gen.headD (0, "")).1 (gen.headD (0, "")).2 dirName files
            (if path = "" then dirName else path)], gen.tail)
      else scanList gen subdirs path

/-- The subdirectory loop of `scanForRepos`. -/
def scanList (gen : List (Nat × String)) (ds : List FsDir) (path : String) :
    List LocalRepo × List (Nat × String) :=
  match ds with
  | [] => ([], gen)
  | c :: rest =>
      if isSkippedDirName c.name then scanList gen rest path
      else
        let r := scanForRepos gen c (childPath path c.name)
        let r2 := scanList r.2 rest path
        (r.1 ++ r2.1, r2.2)

end

/-- A scan record with its ambient-effect fields erased — the random id and
the clock-read `updated_at` — for determinism statements about everything
else. -/
def stripVolatile (r : LocalRepo) : LocalRepo :=
  { r with
      id := 0
      updated_at := "" }

/-- Sample provider payload used by concrete instances. -/
def samplePayload : ProviderPayload :=
  { projectPulse := "a pulse", resumePoints := ["p1", "p2", "p3"],
    forgottenIdeas := ["i1", "i2"], reorgAdvice := "advice",
    detailedDescription := none }

/-- Sample cached superficial analysis record (orchestrator namespace shape). -/
def sampleAnalysis : AnalysisResult :=
  { projectPulse := "cached pulse", resumePoints := ["r1"], forgottenIdeas := ["f1"],
    reorgAdvice := "keep", status := Status.success, level := Level.superficial,
    errorDetails := none, fullReadme := some "cached readme",
    detailedDescription := none, inventorySummary := none }

/-- Sample cached detailed analysis record. -/
def sampleDetailed : AnalysisResult :=
  { sampleAnalysis with
      level := Level.detailed
      detailedDescription := some "deep dive" }

/-- Sample repository with id 42. -/
def sampleRepo : GithubRepo :=
  { id := 42, name := "proj", full_name := "user/proj", description := none,
    isPrivate := false, html_url := "", language := some "TypeScript",
    updated_at := "2024-01-01", readme_content := none, default_branch := "main",
    isLocal := false, localPath := none }

/-- Sample environment whose provider call fails with a 429 message. -/
def rateLimitedEnv : GithubEnv :=
  { readmeResult := Except.ok "readme text",
    contentsResult := Except.ok [(false, "src/a.ts")],
    providerRaw := Except.error "OpenRouter API Error: 429 Too Many Requests" }

/-- Sample environment where every collaborator succeeds. -/
def okEnv : GithubEnv :=
  { readmeResult := Except.ok "readme text",
    contentsResult := Except.ok [(false, "src/a.ts")],
    providerRaw := Except.ok samplePayload }

/-- Sample versioned-cache record carrying a stale schema version. -/
def staleCached : CachedAnalysis :=
  { schemaVersion := 0, cachedAt := 1000,
    repo := { id := 42, name := "proj", language := none, description := none },
    analysis := sampleAnalysis }

/-- The empty store. -/
def emptyStore : Store := fun _ => none

/-- Store holding one orchestrator-namespace record for repo 42. -/
def storeHit : Store :=
  setItem (analysisKeyOf 42) (StoredVal.analysisJson sampleAnalysis) emptyStore

/-- Store holding one malformed entry under the versioned-cache key of repo 7. -/
def storeBad : Store :=
  setItem (cacheKeyOf 7) StoredVal.malformed emptyStore

/-- Store holding one detailed orchestrator-namespace record for repo 42. -/
def storeHitDetailed : Store :=
  setItem (analysisKeyOf 42) (StoredVal.analysisJson sampleDetailed) emptyStore

/-- Store whose only entry is a stale-schema versioned-cache record for
repo 42. -/
def storeStale : Store :=
  setItem (cacheKeyOf 42) (StoredVal.cachedJson staleCached) emptyStore

/-- Store with a stale schema marker, one orchestrator-namespace record and
one versioned-cache record for repo 42, plus a settings key. -/
def storeMigration : Store :=
  setItem versionKey (StoredVal.settingsStr "0")
    (setItem (analysisKeyOf 42) (StoredVal.analysisJson sampleAnalysis)
      (setItem (cacheKeyOf 42) (StoredVal.cachedJson staleCached)
        (setItem "gh_token" (StoredVal.settingsStr "ghp_secret") emptyStore)))

/-- Local repository records sharing a `full_name`, for the merge claims. -/
def localRepoA : GithubRepo :=
  { id := 1, name := "x", full_name := "local/x", description := some "first scan",
    isPrivate := true, html_url := "", language := some "Unknown",
    updated_at := "2024-01-01", readme_content := none, default_branch := "main",
    isLocal := true, localPath := some "x" }

/-- A rescan record of the same tree as `localRepoA`: same `full_name`,
different id and description. -/
def localRepoA2 : GithubRepo :=
  { localRepoA with
      id := 2
      description := some "second scan" }

/-- A local record with a distinct `full_name`. -/
def localRepoB : GithubRepo :=
  { localRepoA with
      id := 3
      name := "y"
      full_name := "local/y"
      localPath := some "y" }

/-- A directory whose only subdirectory is the version-control marker. -/
def leafRepoDir : FsDir :=
  FsDir.mk "leaf" ["README.md", "package.json"] [FsDir.mk ".git" [] []]

/-- A repository root that itself contains a deeper nested marker two levels
down (the spec §8 scan-boundary scenario, relative depths). -/
def nestedMarkerDir : FsDir :=
  FsDir.mk "root"
    ["README.md"]
    [FsDir.mk ".git" [] [],
     FsDir.mk "vendor" []
       [FsDir.mk "inner" [] [FsDir.mk ".git" [] []]]]

/-- A tree whose repository root sits at depth 2 beneath the scanned top,
with the nested marker at depth 4. -/
def depthTwoTree : FsDir :=
  FsDir.mk "top" [] [FsDir.mk "mid" [] [nestedMarkerDir]]

/-- A tree holding two distinct repository roots. -/
def twoRepoTree : FsDir :=
  FsDir.mk "top" []
    [FsDir.mk "a" [] [FsDir.mk ".git" [] []],
     FsDir.mk "b" [] [FsDir.mk ".git" [] []]]

/-- A directory containing only noise and hidden children and no marker. -/
def noiseOnlyDir : FsDir :=
  FsDir.mk "top" [] [FsDir.mk "node_modules" [] [], FsDir.mk ".cache" [] []]

/-- A second sample repository, distinct from `sampleRepo`. -/
def sampleRepo2 : GithubRepo :=
  { sampleRepo with
      id := 43
      name := "proj2"
      full_name := "user/proj2" }

/-- A batch environment where every collaborator succeeds. -/
def sampleSyncEnv : SyncEnv :=
  fun _ => { readmeResult := Except.ok "readme text", providerRaw := Except.ok samplePayload }

/-- A character-list prefix stays a prefix after appending. -/
theorem isPrefixOf_append_self (l m : List Char) : List.isPrefixOf l (l ++ m) = true := by
  induction l with
  | nil => simp [List.isPrefixOf]
  | cons a as ih => simp [List.isPrefixOf, ih]

/-- Mismatching head characters refute a character-list prefix. -/
theorem isPrefixOf_cons_false {a b : Char} (h : (a == b) = false) (as bs : List Char) :
    List.isPrefixOf (a :: as) (b :: bs) = false := by
  simp [List.isPrefixOf, h]

/-- Every versioned-cache key carries the versioned-cache prefix. -/
theorem cacheKey_hasPre (i : Nat) : stringHasPre cacheKeyHead (cacheKeyOf i) = true := by
  show List.isPrefixOf cacheKeyHead.data (cacheKeyHead.data ++ (toString i).data) = true
  exact isPrefixOf_append_self cacheKeyHead.data (toString i).data

/-- Mismatching head characters refute a string prefix. -/
theorem stringHasPre_false_of_head (p k : String) (c1 c2 : Char) (p1 k1 : List Char)
    (hp : p.data = c1 :: p1) (hk : k.data = c2 :: k1) (h : (c1 == c2) = false) :
    stringHasPre p k = false := by
  unfold stringHasPre
  rw [hp, hk]
  exact isPrefixOf_cons_false h p1 k1

/-- No orchestrator-namespace key carries the versioned-cache prefix: the two
namespaces are disjoint. -/
theorem analysisKey_no_cachePre (i : Nat) :
    stringHasPre cacheKeyHead (analysisKeyOf i) = false := by
  refine stringHasPre_false_of_head _ _ (Char.ofNat 114) (Char.ofNat 97)
    (String.data "epoAnalysis_") (("nalysis_" ++ toString i).data) rfl rfl (by decide)

/-- Two strings with distinct head characters differ. -/
theorem strNe_of_heads (s t : String) (c1 c2 : Char) (s1 t1 : List Char)
    (hs : s.data = c1 :: s1) (ht : t.data = c2 :: t1) (h : c1 ≠ c2) : s ≠ t := by
  intro he
  have h2 : c1 :: s1 = c2 :: t1 := by rw [← hs, he, ht]
  injection h2 with h3 _
  exact h h3

/-- A versioned-cache key is never an orchestrator-namespace key. -/
theorem cacheKey_ne_analysisKey (i j : Nat) : cacheKeyOf i ≠ analysisKeyOf j := by
  refine strNe_of_heads _ _ (Char.ofNat 114) (Char.ofNat 97)
    (("epoAnalysis_" ++ toString i).data) (("nalysis_" ++ toString j).data) rfl rfl (by decide)

/-- A versioned-cache key is never the schema-version marker key. -/
theorem cacheKey_ne_versionKey (i : Nat) : cacheKeyOf i ≠ versionKey := by
  refine strNe_of_heads _ _ (Char.ofNat 114) (Char.ofNat 99)
    (("epoAnalysis_" ++ toString i).data) (String.data "acheSchemaVersion") rfl rfl (by decide)

/-- An orchestrator-namespace key is never the schema-version marker key. -/
theorem analysisKey_ne_versionKey (i : Nat) : analysisKeyOf i ≠ versionKey := by
  refine strNe_of_heads _ _ (Char.ofNat 97) (Char.ofNat 99)
    (("nalysis_" ++ toString i).data) (String.data "acheSchemaVersion") rfl rfl (by decide)

/-- The analysis state and call list of the fetch path do not depend on the
incoming store. -/
theorem handleAnalyzeFetch_store_agnostic (env : GithubEnv) (repo : GithubRepo)
    (level : ReqLevel) (s1 s2 : Store) (c : Option AnalysisResult) :
    (handleAnalyzeFetch env repo level s1 c).analysis =
      (handleAnalyzeFetch env repo level s2 c).analysis
  ∧ (handleAnalyzeFetch env repo level s1 c).calls =
      (handleAnalyzeFetch env repo level s2 c).calls := by
  cases level <;> cases hc : env.contentsResult <;> cases hp : env.providerRaw <;>
    simp [handleAnalyzeFetch, afterContext, analyzeRepository, hc, hp]

/-- On a cache miss the fetch path issues at least one network call, the
first being the README context fetch. -/
theorem handleAnalyze_miss_calls (env : GithubEnv) (repo : GithubRepo)
    (level : ReqLevel) (s : Store)
    (hn : s (analysisKeyOf repo.id) = none) :
    (handleAnalyze env repo level s).calls.head? =
      some (NetCall.fetchReadme repo.full_name) := by
  cases level <;> cases hc : env.contentsResult <;> cases hp : env.providerRaw <;>
    simp [handleAnalyze, hn, handleAnalyzeFetch, afterContext, analyzeRepository, hc, hp]

/-- C1.  For every repository and every cached analysis record for it,
invoking the orchestrator with requestedLevel = superficial, or with any
requestedLevel when the cached record's level is detailed, returns the cached
record unchanged and issues zero network calls (no context fetch, no tree
fetch, no provider call). -/
theorem orchestrator_cache_hit_no_network (env : GithubEnv) (repo : GithubRepo)
    (level : ReqLevel) (s : Store) (a : AnalysisResult)
    (hs : s (analysisKeyOf repo.id) = some (StoredVal.analysisJson a))
    (hl : level = ReqLevel.superficial ∨ a.level = Level.detailed) :
    handleAnalyze env repo level s = { analysis := a, store := s, calls := [] } := by
  simp only [handleAnalyze, hs]
  rw [if_pos hl]

/-- Witness for C1: a superficial request over a cached superficial record,
and a detailed request over a cached detailed record, both return the cached
record with zero calls. -/
theorem orchestrator_cache_hit_no_network_witness :
    handleAnalyze okEnv sampleRepo ReqLevel.superficial storeHit =
      { analysis := sampleAnalysis, store := storeHit, calls := [] }
  ∧ handleAnalyze okEnv sampleRepo ReqLevel.detailed storeHitDetailed =
      { analysis := sampleDetailed, store := storeHitDetailed, calls := [] } :=
  ⟨orchestrator_cache_hit_no_network okEnv sampleRepo ReqLevel.superficial storeHit
      sampleAnalysis (by decide) (Or.inl rfl),
   orchestrator_cache_hit_no_network okEnv sampleRepo ReqLevel.detailed storeHitDetailed
      sampleDetailed (by decide) (Or.inr (by decide))⟩

/-- Counterexample to C3 as stated: a stored entry that fails to deserialize
makes the cache read return absent, but the entry is NOT deleted — after the
call it is still in the store. -/
theorem cache_get_malformed_not_deleted :
    (getCachedAnalysis 7 storeBad).1 = none ∧
    (getCachedAnalysis 7 storeBad).2 (cacheKeyOf 7) = some StoredVal.malformed := by
  decide

/-- C3 as amended.  A stored entry with a schemaVersion different from the
current constant is deleted by the cache read, which returns absent; a stored
entry that fails to deserialize makes the read return absent with the store
unchanged (the entry survives); in both cases the caller never observes the
record. -/
theorem cache_get_invalid_amended (s : Store) (repoId : Nat) :
    (∀ c, s (cacheKeyOf repoId) = some (StoredVal.cachedJson c) →
        c.schemaVersion ≠ CACHE_SCHEMA_VERSION →
        getCachedAnalysis repoId s = (none, removeItem (cacheKeyOf repoId) s) ∧
        (getCachedAnalysis repoId s).2 (cacheKeyOf repoId) = none)
  ∧ (s (cacheKeyOf repoId) = some StoredVal.malformed →
        getCachedAnalysis repoId s = (none, s)) := by
  constructor
  · intro c hc hv
    constructor
    · simp [getCachedAnalysis, hc, hv]
    · simp [getCachedAnalysis, hc, hv, removeItem]
  · intro hm
    simp [getCachedAnalysis, hm]

/-- Witness for the amended C3: the stale-schema record of repo 42 is removed
and absent returned; the malformed entry of repo 7 yields absent with the
store untouched. -/
theorem cache_get_invalid_amended_witness :
    (getCachedAnalysis 42 storeMigration = (none, removeItem (cacheKeyOf 42) storeMigration)
      ∧ (getCachedAnalysis 42 storeMigration).2 (cacheKeyOf 42) = none)
  ∧ getCachedAnalysis 7 storeBad = (none, storeBad) :=
  ⟨(cache_get_invalid_amended storeMigration 42).1 staleCached (by decide) (by decide),
   (cache_get_invalid_amended storeBad 7).2 (by decide)⟩

/-- C4.  For every cached analysis record whose schemaVersion does not equal
the orchestrator's current schema-version constant, an orchestrator invocation
for that repository behaves exactly as if no record were cached: the stale
record is never returned as a cache hit and the full fetch-and-analyze path is
taken.  (The stale record lives in the versioned-cache namespace, the only
namespace whose records carry a schemaVersion; the orchestrator never reads
that namespace, so with no orchestrator-namespace entry present its analysis
and call trace coincide with a run on the store without the stale record, and
the trace is nonempty.) -/
theorem orchestrator_stale_schema_full_path (env : GithubEnv) (repo : GithubRepo)
    (level : ReqLevel) (s : Store) (c : CachedAnalysis)
    (hst : s (cacheKeyOf repo.id) = some (StoredVal.cachedJson c))
    (hv : c.schemaVersion ≠ CACHE_SCHEMA_VERSION)
    (hn : s (analysisKeyOf repo.id) = none) :
    (handleAnalyze env repo level s).analysis =
      (handleAnalyze env repo level (removeItem (cacheKeyOf repo.id) s)).analysis
  ∧ (handleAnalyze env repo level s).calls =
      (handleAnalyze env repo level (removeItem (cacheKeyOf repo.id) s)).calls
  ∧ (handleAnalyze env repo level s).calls ≠ [] := by
  have hn2 : (removeItem (cacheKeyOf repo.id) s) (analysisKeyOf repo.id) = none := by
    rw [removeItem, if_neg (fun h => cacheKey_ne_analysisKey repo.id repo.id h.symm)]
    exact hn
  have hag := handleAnalyzeFetch_store_agnostic env repo level s
    (removeItem (cacheKeyOf repo.id) s) none
  have hcalls := handleAnalyze_miss_calls env repo level s hn
  refine ⟨?_, ?_, ?_⟩
  · simp only [handleAnalyze, hn, hn2]
    exact hag.1
  · simp only [handleAnalyze, hn, hn2]
    exact hag.2
  · intro hnil
    rw [hnil] at hcalls
    exact Option.noConfusion hcalls

/-- Witness for C4: with only the stale-schema record of repo 42 present, the
orchestrator behaves as on a store without it and issues network calls. -/
theorem orchestrator_stale_schema_full_path_witness :
    (handleAnalyze okEnv sampleRepo ReqLevel.superficial storeStale).analysis =
      (handleAnalyze okEnv sampleRepo ReqLevel.superficial
        (removeItem (cacheKeyOf 42) storeStale)).analysis
  ∧ (handleAnalyze okEnv sampleRepo ReqLevel.superficial storeStale).calls =
      (handleAnalyze okEnv sampleRepo ReqLevel.superficial
        (removeItem (cacheKeyOf 42) storeStale)).calls
  ∧ (handleAnalyze okEnv sampleRepo ReqLevel.superficial storeStale).calls ≠ [] :=
  orchestrator_stale_schema_full_path okEnv sampleRepo ReqLevel.superficial storeStale
    staleCached (by decide) (by decide) (by decide)

/-- Counterexample to C5 as stated: with a strictly older persisted marker,
the start-up migration leaves the orchestrator's own cache entries in place —
after migration the orchestrator's lookup for repo 42 is still a cache hit
with zero network calls, not absent. -/
theorem migration_leaves_orchestrator_cache :
    storedVersionNumber storeMigration = some 0
  ∧ (migrateCacheIfNeeded storeMigration) (analysisKeyOf 42) =
      some (StoredVal.analysisJson sampleAnalysis)
  ∧ (handleAnalyze okEnv sampleRepo ReqLevel.superficial
      (migrateCacheIfNeeded storeMigration)).calls = []
  ∧ (handleAnalyze okEnv sampleRepo ReqLevel.superficial
      (migrateCacheIfNeeded storeMigration)).analysis = sampleAnalysis := by
  decide

/-- C5 as amended.  After the start-up migration runs with a persisted marker
strictly older than the current constant, every record in the versioned-cache
namespace has been removed — every subsequent `getCachedAnalysis` returns
absent — while the orchestrator's own cache namespace is untouched (its
entries, when present, survive the migration). -/
theorem migration_clears_versioned_cache (s : Store) (n : Nat)
    (hm : storedVersionNumber s = some n) (hlt : n < CACHE_SCHEMA_VERSION) :
    (∀ repoId, (getCachedAnalysis repoId (migrateCacheIfNeeded s)).1 = none)
  ∧ (∀ repoId, (migrateCacheIfNeeded s) (analysisKeyOf repoId) = s (analysisKeyOf repoId)) := by
  have hne : n ≠ CACHE_SCHEMA_VERSION := Nat.ne_of_lt hlt
  have hmig : migrateCacheIfNeeded s =
      setItem versionKey (StoredVal.settingsStr (toString CACHE_SCHEMA_VERSION))
        (clearCache none s) := by
    simp [migrateCacheIfNeeded, hm, hne, hlt]
  constructor
  · intro repoId
    have h1 : (migrateCacheIfNeeded s) (cacheKeyOf repoId) = none := by
      rw [hmig]
      simp [setItem, clearCache, cacheKey_ne_versionKey repoId, cacheKey_hasPre repoId]
    simp [getCachedAnalysis, h1]
  · intro repoId
    rw [hmig]
    simp [setItem, clearCache, analysisKey_ne_versionKey repoId, analysisKey_no_cachePre repoId]

/-- Witness for the amended C5: migration on the sample store clears the
versioned record of repo 42 and leaves its orchestrator-namespace record in
place. -/
theorem migration_clears_versioned_cache_witness :
    (getCachedAnalysis 42 (migrateCacheIfNeeded storeMigration)).1 = none
  ∧ (migrateCacheIfNeeded storeMigration) (analysisKeyOf 42) =
      storeMigration (analysisKeyOf 42) := by
  have h := migration_clears_versioned_cache storeMigration 0 (by decide) (by decide)
  exact ⟨h.1 42, h.2 42⟩

/-- C6.  For every repository with no cached record, if the analysis-provider
call fails, the orchestrator reaches the error state carrying the classified
message, no cache write occurs, and a subsequent cache read for that
repository id still returns absent. -/
theorem provider_failure_error_no_write (env : GithubEnv) (repo : GithubRepo)
    (level : ReqLevel) (s : Store) (m : String)
    (hn : s (analysisKeyOf repo.id) = none)
    (hp : env.providerRaw = Except.error m)
    (hc : level = ReqLevel.detailed → ∃ cs, env.contentsResult = Except.ok cs) :
    (handleAnalyze env repo level s).analysis.status = Status.error
  ∧ (handleAnalyze env repo level s).analysis.errorDetails = some (classifyError m)
  ∧ (handleAnalyze env repo level s).store = s
  ∧ (handleAnalyze env repo level s).store (analysisKeyOf repo.id) = none := by
  cases level with
  | superficial =>
      refine ⟨?_, ?_, ?_, ?_⟩ <;>
        simp [handleAnalyze, hn, handleAnalyzeFetch, afterContext, analyzeRepository, hp]
  | detailed =>
      obtain ⟨cs, hcs⟩ := hc rfl
      refine ⟨?_, ?_, ?_, ?_⟩ <;>
        simp [handleAnalyze, hn, handleAnalyzeFetch, afterContext, analyzeRepository, hp, hcs]

/-- Witness for C6: a rate-limited provider call on an uncached repo yields
the error state with the classified rate-limit message, no write, and a
still-absent cache entry. -/
theorem provider_failure_error_no_write_witness :
    (handleAnalyze rateLimitedEnv sampleRepo ReqLevel.superficial emptyStore).analysis.status =
      Status.error
  ∧ (handleAnalyze rateLimitedEnv sampleRepo ReqLevel.superficial emptyStore).analysis.errorDetails =
      some rateLimitMsg
  ∧ (handleAnalyze rateLimitedEnv sampleRepo ReqLevel.superficial emptyStore).store = emptyStore
  ∧ (handleAnalyze rateLimitedEnv sampleRepo ReqLevel.superficial
      emptyStore).store (analysisKeyOf 42) = none := by
  have h := provider_failure_error_no_write rateLimitedEnv sampleRepo ReqLevel.superficial
    emptyStore "OpenRouter API Error: 429 Too Many Requests" rfl rfl
    (fun _ => ⟨[(false, "src/a.ts")], rfl⟩)
  refine ⟨h.1, ?_, h.2.2.1, h.2.2.2⟩
  rw [h.2.1]
  decide

/-- C10.  Clearing the analysis cache touches only cache entries: clear with a
repository id removes exactly that repository's cache key and leaves every
other key unchanged; clear-all removes exactly the keys carrying the
analysis-cache prefix and leaves every other key unchanged. -/
theorem clear_cache_frame (s : Store) (repoId : Nat) :
    (clearCache (some repoId) s) (cacheKeyOf repoId) = none
  ∧ (∀ k, k ≠ cacheKeyOf repoId → (clearCache (some repoId) s) k = s k)
  ∧ (∀ k, stringHasPre cacheKeyHead k = true → (clearCache none s) k = none)
  ∧ (∀ k, stringHasPre cacheKeyHead k = false → (clearCache none s) k = s k) := by
  refine ⟨?_, ?_, ?_, ?_⟩
  · simp [clearCache, removeItem]
  · intro k hk
    simp [clearCache, removeItem, hk]
  · intro k hk
    simp [clearCache, hk]
  · intro k hk
    simp [clearCache, hk]

/-- Witness for C10: clearing repo 42 removes its cache key and leaves the
token; clear-all removes the versioned record and leaves the token and the
orchestrator-namespace record. -/
theorem clear_cache_frame_witness :
    (clearCache (some 42) storeMigration) (cacheKeyOf 42) = none
  ∧ (clearCache (some 42) storeMigration) ("gh_token") =
      some (StoredVal.settingsStr "ghp_secret")
  ∧ (clearCache none storeMigration) (cacheKeyOf 42) = none
  ∧ (clearCache none storeMigration) ("gh_token") = some (StoredVal.settingsStr "ghp_secret")
  ∧ (clearCache none storeMigration) (analysisKeyOf 42) =
      some (StoredVal.analysisJson sampleAnalysis) := by
  have h := clear_cache_frame storeMigration 42
  refine ⟨h.1, ?_, ?_, ?_, ?_⟩
  · rw [h.2.1 ("gh_token") (by decide)]
    decide
  · exact h.2.2.1 (cacheKeyOf 42) (by decide)
  · rw [h.2.2.2 ("gh_token") (by decide)]
    decide
  · rw [h.2.2.2 (analysisKeyOf 42) (by decide)]
    decide

/-- A list of length at most one is recovered from its last element. -/
theorem eq_getLast_toList_of_short {α : Type} (l : List α) (h : l.length ≤ 1) :
    l = (l.getLast?).toList := by
  match l with
  | [] => rfl
  | [a] => rfl
  | a :: b :: t => simp only [List.length_cons] at h; omega

/-- Under distinct `full_name`s, filtering by one name keeps at most one
record. -/
theorem filter_byName_len (acc : List GithubRepo)
    (h : (acc.map GithubRepo.full_name).Nodup) (k : String) :
    (acc.filter (fun x => x.full_name == k)).length ≤ 1 := by
  induction acc with
  | nil => simp
  | cons a acc ih =>
      simp only [List.map_cons, List.nodup_cons] at h
      obtain ⟨hna, hnd⟩ := h
      by_cases hk : a.full_name = k
      · have hnil : acc.filter (fun x => x.full_name == k) = [] := by
          rw [List.filter_eq_nil_iff]
          intro x hx
          simp only [beq_iff_eq]
          intro hxk
          exact hna (List.mem_map.mpr ⟨x, hx, by rw [hxk, hk]⟩)
        simp [List.filter_cons, hk, hnil]
      · simp only [List.filter_cons, beq_iff_eq, hk, if_false]
        exact ih hnd

/-- Under distinct `full_name`s, a name filter equals its own last element. -/
theorem filter_byName_short (acc : List GithubRepo)
    (h : (acc.map GithubRepo.full_name).Nodup) (k : String) :
    acc.filter (fun x => x.full_name == k) =
      ((acc.filter (fun x => x.full_name == k)).getLast?).toList :=
  eq_getLast_toList_of_short _ (filter_byName_len acc h k)

/-- Replacing the records of one name leaves a filter by a different name
unchanged. -/
theorem filter_map_replace_ne (acc : List GithubRepo) (r : GithubRepo) (k : String)
    (hk : r.full_name ≠ k) :
    (acc.map (fun x => if x.full_name == r.full_name then r else x)).filter
        (fun x => x.full_name == k) =
      acc.filter (fun x => x.full_name == k) := by
  induction acc with
  | nil => rfl
  | cons a acc ih =>
      simp only [List.map_cons]
      by_cases h1 : a.full_name = r.full_name
      · rw [show (if (a.full_name == r.full_name) = true then r else a) = r from
          if_pos (by simp [h1])]
        rw [List.filter_cons, List.filter_cons, if_neg (by simp [hk]),
          if_neg (by simp [h1]; exact hk)]
        exact ih
      · rw [show (if (a.full_name == r.full_name) = true then r else a) = a from
          if_neg (by simp [h1])]
        rw [List.filter_cons, List.filter_cons]
        by_cases h2 : a.full_name = k
        · rw [if_pos (by simp [h2]), if_pos (by simp [h2]), ih]
        · rw [if_neg (by simp [h2]), if_neg (by simp [h2])]
          exact ih

/-- If no record carries the given name, replacement filters to nothing. -/
theorem filter_map_replace_none (acc : List GithubRepo) (r : GithubRepo)
    (h : ∀ x ∈ acc, x.full_name ≠ r.full_name) :
    (acc.map (fun x => if x.full_name == r.full_name then r else x)).filter
      (fun x => x.full_name == r.full_name) = [] := by
  induction acc with
  | nil => rfl
  | cons a acc ih =>
      have ha : a.full_name ≠ r.full_name := h a (by simp)
      have ih2 := ih (fun x hx => h x (by simp [hx]))
      simp only [List.map_cons]
      rw [show (if (a.full_name == r.full_name) = true then r else a) = a from
        if_neg (by simp [ha])]
      rw [List.filter_cons, if_neg (by simp [ha])]
      exact ih2

/-- If some record carries the inserted name and names are distinct,
replacement filters to exactly the inserted record. -/
theorem filter_map_replace_eq (acc : List GithubRepo) (r : GithubRepo)
    (h : (acc.map GithubRepo.full_name).Nodup)
    (hany : acc.any (fun x => x.full_name == r.full_name) = true) :
    (acc.map (fun x => if x.full_name == r.full_name then r else x)).filter
      (fun x => x.full_name == r.full_name) = [r] := by
  induction acc with
  | nil => simp at hany
  | cons a acc ih =>
      simp only [List.map_cons, List.nodup_cons] at h
      obtain ⟨hna, hnd⟩ := h
      simp only [List.map_cons]
      by_cases h1 : a.full_name = r.full_name
      · have hnone : ∀ x ∈ acc, x.full_name ≠ r.full_name := by
          intro x hx hxr
          exact hna (List.mem_map.mpr ⟨x, hx, by rw [hxr, h1]⟩)
        rw [show (if (a.full_name == r.full_name) = true then r else a) = r from
          if_pos (by simp [h1])]
        rw [List.filter_cons, if_pos (by simp)]
        rw [filter_map_replace_none acc r hnone]
      · have hany2 : acc.any (fun x => x.full_name == r.full_name) = true := by
          rcases List.any_eq_true.mp hany with ⟨x, hx, hxr⟩
          rcases List.mem_cons.mp hx with hxa | hxacc
          · exact absurd (by simpa [hxa] using hxr) h1
          · exact List.any_eq_true.mpr ⟨x, hxacc, hxr⟩
        rw [show (if (a.full_name == r.full_name) = true then r else a) = a from
          if_neg (by simp [h1])]
        rw [List.filter_cons, if_neg (by simp [h1])]
        exact ih hnd hany2

/-- One `Map` insertion filters by a name exactly like appending the record
and keeping the last occurrence. -/
theorem recInsert_filter (acc : List GithubRepo) (r : GithubRepo)
    (h : (acc.map GithubRepo.full_name).Nodup) (k : String) :
    (recInsert acc r).filter (fun x => x.full_name == k) =
      (((acc ++ [r]).filter (fun x => x.full_name == k)).getLast?).toList := by
  unfold recInsert
  by_cases hk : r.full_name = k
  · subst hk
    have hrhs : (acc ++ [r]).filter (fun x => x.full_name == r.full_name) =
        acc.filter (fun x => x.full_name == r.full_name) ++ [r] := by
      simp [List.filter_append]
    rw [hrhs, List.getLast?_append]
    split
    · rename_i hany
      rw [filter_map_replace_eq acc r h hany]
      rfl
    · rename_i hany
      have hnil : acc.filter (fun x => x.full_name == r.full_name) = [] := by
        rw [List.filter_eq_nil_iff]
        intro x hx
        simp only [beq_iff_eq]
        intro hxr
        exact hany (List.any_eq_true.mpr ⟨x, hx, by simp [hxr]⟩)
      simp [List.filter_append, hnil]
  · have hrhs : (acc ++ [r]).filter (fun x => x.full_name == k) =
        acc.filter (fun x => x.full_name == k) := by
      simp [List.filter_append, hk]
    rw [hrhs]
    split
    · rw [filter_map_replace_ne acc r k hk]
      exact filter_byName_short acc h k
    · rw [List.filter_append]
      have : List.filter (fun x => x.full_name == k) [r] = [] := by simp [hk]
      rw [this, List.append_nil]
      exact filter_byName_short acc h k

/-- One `Map` insertion keeps the names deduplicated. -/
theorem recInsert_nodup (acc : List GithubRepo) (r : GithubRepo)
    (h : (acc.map GithubRepo.full_name).Nodup) :
    ((recInsert acc r).map GithubRepo.full_name).Nodup := by
  unfold recInsert
  split
  · rename_i hany
    have hmap : (acc.map (fun x => if x.full_name == r.full_name then r else x)).map
        GithubRepo.full_name = acc.map GithubRepo.full_name := by
      rw [List.map_map]
      apply List.map_congr_left
      intro x _
      by_cases h1 : x.full_name = r.full_name
      · simp [Function.comp, h1]
      · simp [Function.comp, h1]
    rw [hmap]
    exact h
  · rename_i hany
    have hnotin : r.full_name ∉ acc.map GithubRepo.full_name := by
      intro hmem
      obtain ⟨x, hx, hxe⟩ := List.mem_map.mp hmem
      exact hany (List.any_eq_true.mpr ⟨x, hx, by simp [hxe]⟩)
    simp [List.nodup_append, h, hnotin]

/-- The accumulated fold of `Map` insertions: names stay deduplicated and, for
each name, the kept record is the last occurrence over the processed input. -/
theorem dedup_go (l : List GithubRepo) : ∀ acc : List GithubRepo,
    (acc.map GithubRepo.full_name).Nodup →
    (((l.foldl recInsert acc).map GithubRepo.full_name).Nodup
      ∧ ∀ k, (l.foldl recInsert acc).filter (fun x => x.full_name == k) =
          ((((acc ++ l).filter (fun x => x.full_name == k)).getLast?).toList)) := by
  induction l with
  | nil =>
      intro acc h
      refine ⟨h, fun k => ?_⟩
      simpa using filter_byName_short acc h k
  | cons r rs ih =>
      intro acc h
      have h2 := recInsert_nodup acc r h
      obtain ⟨ihn, ihf⟩ := ih (recInsert acc r) h2
      refine ⟨ihn, fun k => ?_⟩
      have hstep : (r :: rs).foldl recInsert acc = rs.foldl recInsert (recInsert acc r) := rfl
      rw [hstep, ihf k]
      have hassoc : acc ++ r :: rs = (acc ++ [r]) ++ rs := by simp
      rw [hassoc, List.filter_append, List.filter_append, List.getLast?_append,
        List.getLast?_append]
      have hAB : ((recInsert acc r).filter (fun x => x.full_name == k)).getLast? =
          (((acc ++ [r]).filter (fun x => x.full_name == k)).getLast?) := by
        rw [recInsert_filter acc r h k]
        cases ((acc ++ [r]).filter (fun x => x.full_name == k)).getLast? with
        | none => rfl
        | some x => rfl
      rw [hAB]

/-- Counterexample to C2 as stated: re-merging a record with an already-seen
`fullName` REPLACES the already-present record — the first-seen record is no
longer in the merged collection; the later record took its place. -/
theorem merge_first_seen_fails :
    localRepoA ∉ mergeLocalRepos [localRepoA] [localRepoA2, localRepoB]
  ∧ mergeLocalRepos [localRepoA] [localRepoA2, localRepoB] = [localRepoA2, localRepoB] := by
  decide

/-- C2 as amended.  For every sequence of local-scan merges, the merged
collection holds at most one record per `fullName` — filtering it by any
name yields exactly the LAST record of the concatenated input carrying that
name (or nothing), at the first-seen position; first-seen never wins when a
later record shares the name. -/
theorem merge_dedup_last_seen_unique (prev newRepos : List GithubRepo) :
    ((mergeLocalRepos prev newRepos).map GithubRepo.full_name).Nodup
  ∧ ∀ k, (mergeLocalRepos prev newRepos).filter (fun x => x.full_name == k) =
      ((((prev ++ newRepos).filter (fun x => x.full_name == k)).getLast?).toList) := by
  unfold mergeLocalRepos dedupByFullName
  have h := dedup_go (prev ++ newRepos) [] (by simp)
  exact ⟨h.1, fun k => by simpa using h.2 k⟩

/-- The per-repository trace of the batch loop visits exactly the given
repositories in order. -/
theorem syncGo_map (env : SyncEnv) (total : Nat) :
    ∀ (l : List GithubRepo) (c : Nat) (s : Store),
      (syncGo env total c l s).2.2.map (fun st => (st.repoId, st.repoName)) =
        l.map (fun r => (r.id, r.name)) := by
  intro l
  induction l with
  | nil => intro c s; rfl
  | cons r rs ih =>
      intro c s
      simp only [syncGo, List.map_cons]
      rw [ih (c + 1) (syncStepRun env s r).1]

/-- The batch loop reports progress before each repository, indices counting
up from the start value with the fixed total. -/
theorem syncGo_progress (env : SyncEnv) (total : Nat) :
    ∀ (l : List GithubRepo) (c : Nat) (s : Store),
      (syncGo env total c l s).2.1 = progressSchedule total c l := by
  intro l
  induction l with
  | nil => intro c s; rfl
  | cons r rs ih =>
      intro c s
      simp only [syncGo, progressSchedule]
      rw [ih (c + 1) (syncStepRun env s r).1]

/-- Every step of the batch loop with an existing cache entry issues no
network call, and every step without one starts with the README fetch. -/
theorem syncGo_steps (env : SyncEnv) (total : Nat) :
    ∀ (l : List GithubRepo) (c : Nat) (s : Store),
      ∀ st ∈ (syncGo env total c l s).2.2,
        (st.skipped = true → st.calls = []) ∧
        (st.skipped = false → st.calls.head? = some (NetCall.fetchReadme st.fullName)) := by
  intro l
  induction l with
  | nil =>
      intro c s st hst
      simp [syncGo] at hst
  | cons r rs ih =>
      intro c s st hst
      simp only [syncGo, List.mem_cons] at hst
      rcases hst with hhead | htail
      · subst hhead
        cases hc : s (analysisKeyOf r.id) with
        | some v =>
            refine ⟨fun _ => ?_, fun hcontra => by simp [hc] at hcontra⟩
            simp [syncStepRun, hc]
        | none =>
            refine ⟨fun hcontra => by simp [hc] at hcontra, fun _ => ?_⟩
            cases hr : (env r).readmeResult with
            | error m => simp [syncStepRun, hc, hr]
            | ok readme =>
                cases hp : (env r).providerRaw with
                | error m => simp [syncStepRun, hc, hr, analyzeRepository, hp]
                | ok p => simp [syncStepRun, hc, hr, analyzeRepository, hp]
      · exact ih (c + 1) (syncStepRun env s r).1 st htail

/-- C7.  For every repository list and limit, the batch coordinator processes
exactly min(limit, length) repositories, in list order and strictly
sequentially; a repository with an existing cache entry is skipped (no context
fetch, no analysis call — its cache already satisfies the superficial level
the batch requests), an uncached one starts with the context fetch; and
progress (current index, total, current name) is reported before each
repository. -/
theorem sync_batch_contract (env : SyncEnv) (limit : Nat) (repos : List GithubRepo)
    (s : Store) :
    ((syncRepositories env limit repos s).2.2.map (fun st => (st.repoId, st.repoName)) =
      (repos.take limit).map (fun r => (r.id, r.name)))
  ∧ (syncRepositories env limit repos s).2.2.length = min limit repos.length
  ∧ (syncRepositories env limit repos s).2.1 =
      progressSchedule (min limit repos.length) 0 (repos.take limit)
  ∧ ∀ st ∈ (syncRepositories env limit repos s).2.2,
      (st.skipped = true → st.calls = []) ∧
      (st.skipped = false → st.calls.head? = some (NetCall.fetchReadme st.fullName)) := by
  refine ⟨syncGo_map env _ _ 0 s, ?_, ?_, syncGo_steps env _ _ 0 s⟩
  · have hm := congrArg List.length (syncGo_map env (repos.take limit).length (repos.take limit) 0 s)
    simp only [syncRepositories]
    simpa [List.length_take] using hm
  · have hp := syncGo_progress env (repos.take limit).length (repos.take limit) 0 s
    simp only [syncRepositories]
    rw [hp, List.length_take]

/-- Witness for C7: limit 2 over three repositories with repo 42 already
cached — two steps in order, two progress reports, the cached step idle and
the uncached step opening with its README fetch. -/
theorem sync_batch_contract_witness :
    ((syncRepositories sampleSyncEnv 2 [sampleRepo, sampleRepo2, sampleRepo] storeHit).2.2.map
        (fun st => (st.repoId, st.repoName)) = [(42, "proj"), (43, "proj2")])
  ∧ (syncRepositories sampleSyncEnv 2 [sampleRepo, sampleRepo2, sampleRepo] storeHit).2.2.length = 2
  ∧ (syncRepositories sampleSyncEnv 2 [sampleRepo, sampleRepo2, sampleRepo] storeHit).2.1 =
      [{ current := 0, total := 2, currentName := "proj" },
       { current := 1, total := 2, currentName := "proj2" }]
  ∧ ∀ st ∈ (syncRepositories sampleSyncEnv 2 [sampleRepo, sampleRepo2, sampleRepo] storeHit).2.2,
      (st.skipped = true → st.calls = []) ∧
      (st.skipped = false → st.calls.head? = some (NetCall.fetchReadme st.fullName)) := by
  have h := sync_batch_contract sampleSyncEnv 2 [sampleRepo, sampleRepo2, sampleRepo] storeHit
  refine ⟨?_, ?_, ?_, h.2.2.2⟩
  · rw [h.1]; decide
  · rw [h.2.1]; decide
  · rw [h.2.2.1]; decide

/-- C8.  A directory containing a version-control marker subdirectory yields
exactly one repository record — extracted from the matched root itself, so a
nested marker deeper inside yields no additional record — and a directory
without a marker yields zero direct records, delegating to its subdirectory
loop, which contributes nothing for a noise or hidden child. -/
theorem scan_repo_boundary (gen : List (Nat × String)) (d : FsDir) (path : String) :
    (hasGitMarker d = true →
       (scanForRepos gen d path).1 =
         [extractRepoMetadata (gen.headD (0, "")).1 (gen.headD (0, "")).2 d.name d.files
            (if path = "" then d.name else path)])
  ∧ (hasGitMarker d = false →
       scanForRepos gen d path = scanList gen d.subdirs path)
  ∧ (∀ (c : FsDir) (ds : List FsDir) (g : List (Nat × String)) (p : String),
       isSkippedDirName c.name = true → scanList g (c :: ds) p = scanList g ds p) := by
  refine ⟨?_, ?_, ?_⟩
  · intro h
    cases d with
    | mk dn fs ds =>
        simp only [hasGitMarker, FsDir.subdirs] at h
        simp only [scanForRepos]
        rw [if_pos h]
        simp [FsDir.name, FsDir.files]
  · intro h
    cases d with
    | mk dn fs ds =>
        simp only [hasGitMarker, FsDir.subdirs] at h
        simp only [scanForRepos, FsDir.subdirs]
        rw [if_neg (by simp [h])]
  · intro c ds g p h
    simp only [scanList]
    rw [if_pos h]

/-- Witness for C8: the spec scenario — a repository root at depth 2 whose
subtree holds another marker at depth 4 yields exactly the root record; the
depth-0 and depth-1 directories delegate; a noise child contributes nothing. -/
theorem scan_repo_boundary_witness :
    hasGitMarker nestedMarkerDir = true
  ∧ (scanForRepos [(5, "2024-05-01T00:00:00.000Z")] nestedMarkerDir ("mid/root")).1 =
      [extractRepoMetadata 5 "2024-05-01T00:00:00.000Z" "root" ["README.md"] ("mid/root")]
  ∧ hasGitMarker depthTwoTree = false
  ∧ scanForRepos [(5, "t")] depthTwoTree "" = scanList [(5, "t")] depthTwoTree.subdirs ""
  ∧ scanList [(9, "t")] [FsDir.mk "node_modules" [] [], FsDir.mk "x" [] []] "" =
      scanList [(9, "t")] [FsDir.mk "x" [] []] ""
  ∧ (scanForRepos [(5, "t")] depthTwoTree "").1.length = 1 := by
  refine ⟨by decide, ?_, by decide, ?_, ?_, by decide⟩
  · rw [(scan_repo_boundary [(5, "2024-05-01T00:00:00.000Z")] nestedMarkerDir
      ("mid/root")).1 (by decide)]
    decide
  · exact (scan_repo_boundary [(5, "t")] depthTwoTree "").2.1 (by decide)
  · exact (scan_repo_boundary [(9, "t")] depthTwoTree "").2.2
      (FsDir.mk "node_modules" [] []) [FsDir.mk "x" [] []] [(9, "t")] "" (by decide)

/-- Counterexample to C9 as stated: discovery ids come from the random
stream — two scans of the same unchanged tree under different draws produce
different ids for the same repository, and one scan under colliding draws
produces two records sharing an id.  (The clock-read `updated_at` likewise
differs between two scans under different clock readings.) -/
theorem scan_ids_random_counterexample :
    ((scanForRepos [(1, "2024-01-01T00:00:00.000Z")]
        (FsDir.mk "proj" [] [FsDir.mk ".git" [] []]) "").1.map LocalRepo.id ≠
      (scanForRepos [(2, "2024-01-02T00:00:00.000Z")]
        (FsDir.mk "proj" [] [FsDir.mk ".git" [] []]) "").1.map LocalRepo.id)
  ∧ ¬ (((scanForRepos [(7, "t"), (7, "t")] twoRepoTree "").1.map LocalRepo.id).Nodup)
  ∧ ((scanForRepos [(1, "2024-01-01T00:00:00.000Z")]
        (FsDir.mk "proj" [] [FsDir.mk ".git" [] []]) "").1.map LocalRepo.updated_at ≠
      (scanForRepos [(1, "2024-01-02T00:00:00.000Z")]
        (FsDir.mk "proj" [] [FsDir.mk ".git" [] []]) "").1.map LocalRepo.updated_at) := by
  decide

/-- One ambient draw or another changes nothing in an extracted record besides
its id and its `updated_at` timestamp. -/
theorem stripVolatile_extract (r1 r2 : Nat) (t1 t2 : String) (dn : String)
    (fs : List String) (p : String) :
    stripVolatile (extractRepoMetadata r1 t1 dn fs p) =
      stripVolatile (extractRepoMetadata r2 t2 dn fs p) := by
  simp [stripVolatile, extractRepoMetadata]

/-- Determinism of the scan modulo the ambient-effect fields, by strong
induction on directory size (joint statement for the directory scan and the
subdirectory loop). -/
theorem scan_stripVolatile_go : ∀ n : Nat,
    ((∀ d : FsDir, sizeOf d ≤ n → ∀ (g1 g2 : List (Nat × String)) (path : String),
        (scanForRepos g1 d path).1.map stripVolatile =
          (scanForRepos g2 d path).1.map stripVolatile)
    ∧ (∀ ds : List FsDir, sizeOf ds ≤ n → ∀ (g1 g2 : List (Nat × String)) (path : String),
        (scanList g1 ds path).1.map stripVolatile =
          (scanList g2 ds path).1.map stripVolatile)) := by
  intro n
  induction n using Nat.strong_induction_on with
  | _ n ih =>
    constructor
    · intro d hd g1 g2 path
      cases d with
      | mk dn fs ds =>
          have hlt : sizeOf ds < n := by
            have hspec : sizeOf ds < sizeOf (FsDir.mk dn fs ds) := by
              simp only [FsDir.mk.sizeOf_spec]
              omega
            omega
          by_cases hm : (ds.any (fun c => c.name == gitMarkerName)) = true
          · simp only [scanForRepos]
            rw [if_pos hm, if_pos hm]
            simp only [List.map_cons, List.map_nil]
            rw [stripVolatile_extract (g1.headD (0, "")).1 (g2.headD (0, "")).1
              (g1.headD (0, "")).2 (g2.headD (0, "")).2 dn fs]
          · simp only [scanForRepos]
            rw [if_neg hm, if_neg hm]
            exact (ih (sizeOf ds) hlt).2 ds (Nat.le_refl _) g1 g2 path
    · intro ds hds g1 g2 path
      cases ds with
      | nil => simp [scanList]
      | cons c rest =>
          have hc : sizeOf c < n := by
            have : sizeOf c < sizeOf (c :: rest) := by
              simp only [List.cons.sizeOf_spec]
              omega
            omega
          have hr : sizeOf rest < n := by
            have : sizeOf rest < sizeOf (c :: rest) := by
              simp only [List.cons.sizeOf_spec]
              omega
            omega
          by_cases hskip : isSkippedDirName c.name = true
          · simp only [scanList]
            rw [if_pos hskip, if_pos hskip]
            exact (ih (sizeOf rest) hr).2 rest (Nat.le_refl _) g1 g2 path
          · simp only [scanList]
            rw [if_neg hskip, if_neg hskip]
            simp only [List.map_append]
            rw [(ih (sizeOf c) hc).1 c (Nat.le_refl _) g1 g2 (childPath path c.name),
              (ih (sizeOf rest) hr).2 rest (Nat.le_refl _)
                (scanForRepos g1 c (childPath path c.name)).2
                (scanForRepos g2 c (childPath path c.name)).2 path]

/-- C9 as amended.  Discovery is deterministic in everything except its two
ambient-effect fields: two scans of the same unchanged directory tree produce
the same records — same `full_name`, path, signature — up to the ids drawn
from the random source, which are neither stable across scans nor guaranteed
unique within one scan, and up to the `updated_at` timestamps read from the
clock. -/
theorem scan_deterministic_modulo_ids (g1 g2 : List (Nat × String)) (d : FsDir)
    (path : String) :
    (scanForRepos g1 d path).1.map stripVolatile =
      (scanForRepos g2 d path).1.map stripVolatile :=
  (scan_stripVolatile_go (sizeOf d)).1 d (Nat.le_refl _) g1 g2 path

end RepoNexus
